import Mathlib

/-!
Verification of the phased publication state machine of the aidc-toolkit
publisher (newer Publisher design: src/publisher.ts, src/non-alpha-publisher.ts,
src/configuration.ts). Shallow embedding: external command outputs (git log,
git status, lstat) are inputs; JS Sets are modelled as duplicate-free lists
in insertion order; JS Date millisecond timestamps are Nat.
-/

set_option autoImplicit false

namespace Publisher

/-- Release phase. configuration.ts declares alpha, beta and production;
non-alpha-publisher.ts compares against the string "prod" for the production
phase, so the constructor is named prod to match the comparisons. -/
inductive Phase
  | alpha
  | beta
  | prod
deriving DecidableEq

/-- Dependency type of a repository (configuration.ts, newer design). -/
inductive DependencyType
  | external
  | internal
  | application
  | helper
deriving DecidableEq

/- String helpers over character lists. JS String.startsWith, String.endsWith,
String.includes are modelled directly on the character data so that every
definition evaluates by kernel reduction. -/

/-- Whether pat is an initial segment of s (JS s.startsWith(pat)). -/
def isLeading : List Char → List Char → Bool
  | [], _ => true
  | _ :: _, [] => false
  | a :: as, b :: bs => a = b && isLeading as bs

/-- JS s.startsWith(pat). -/
def strStarts (s pat : String) : Bool :=
  isLeading pat.data s.data

/-- JS s.endsWith(pat). -/
def strEnds (s pat : String) : Bool :=
  isLeading pat.data.reverse s.data.reverse

/-- Whether pat occurs as a contiguous run inside cs. -/
def occursIn (pat : List Char) : List Char → Bool
  | [] => isLeading pat []
  | c :: rest => isLeading pat (c :: rest) || occursIn pat rest

/-- JS s.includes(pat). -/
def strHas (s pat : String) : Bool :=
  occursIn pat.data s.data

/-- JS dependency.split("/") modelled on character data: split at every
separator occurrence, no limit. -/
def splitOnChar (sep : Char) : List Char → List (List Char)
  | [] => [[]]
  | c :: rest =>
    match splitOnChar sep rest with
    | [] => []
    | h :: t => if c = sep then [] :: h :: t else (c :: h) :: t

/- Change detection (publisher.ts, Publisher.anyChanges lines 513-653). -/

/-- A single changed-file record handed to processChangedFile: the status
field of a git log --name-status line or git status --porcelain line, the
file it names, and the rename target when present. -/
structure ChangeEvent where
  status : String
  file : String
  newFile : Option String

/-- Settings consumed by the exclusion filter inside anyChanges: the
ignoreGitHub argument and the repository's excludePaths (empty when the
configuration omits them, matching the ?? [] default at line 516). -/
structure ChangeConfig where
  ignoreGitHub : Bool
  excludePaths : List String

/-- Characters admitted by the status validation regexp [ AMDR]{1,2}. -/
def statusCharOK (c : Char) : Bool :=
  c = ' ' || c = 'A' || c = 'M' || c = 'D' || c = 'R'

/-- Resolution of a two-character index/working-tree status pair to a single
effective status (publisher.ts lines 544-560). -/
def resolveStatus (indexStatus workingTreeStatus : Char) : Char :=
  if indexStatus = ' ' then workingTreeStatus
  else if workingTreeStatus = ' ' then indexStatus
  else if workingTreeStatus = 'D' then 'D'
  else if indexStatus = 'A' then 'A'
  else indexStatus

/-- Resolved status of a status string: the character itself when the string
has length one, the two-character resolution when it has length two, and
none otherwise (the regexp rejects other lengths). -/
def resolveStatusChars : List Char → Option Char
  | [c] => some c
  | [i, w] => some (resolveStatus i w)
  | _ => none

/-- The exclusion filter applied to a file before insertion into the
changed-file set (publisher.ts line 574): hidden paths are excluded unless
the .github directory is admitted, package-lock.json and test/ paths are
always excluded, and so is anything matching a configured exclusion
(exact match, or prefix for patterns ending in a slash). -/
def includedFile (cc : ChangeConfig) (f : String) : Bool :=
  ((!strStarts f "." && !strHas f "/.") || (!cc.ignoreGitHub && strStarts f ".github/"))
    && f != "package-lock.json"
    && !strStarts f "test/"
    && (cc.excludePaths.filter
        (fun e => f == e || (strEnds e "/" && strStarts f e))).length == 0

/-- JS Set.delete on the duplicate-free list model. -/
def setDelete (s : List String) (f : String) : List String :=
  s.filter (fun g => g != f)

/-- The file removed from the changed-file set by an event with resolved
status rs: the named file for a delete or the source of a rename
(publisher.ts line 564). -/
def deleteTarget (rs : Char) (ev : ChangeEvent) : Option String :=
  if rs = 'D' || rs = 'R' then some ev.file else none

/-- The file inserted into the changed-file set by an event with resolved
status rs: the rename target for a rename, nothing for a delete, the named
file otherwise (publisher.ts line 565). -/
def addTarget (rs : Char) (ev : ChangeEvent) : Option String :=
  if rs = 'R' then ev.newFile
  else if rs != 'D' then some ev.file else none

/-- Removal step of processChangedFile (publisher.ts line 568). -/
def applyDelete (s : List String) : Option String → List String
  | some f => setDelete s f
  | none => s

/-- Insertion step of processChangedFile (publisher.ts lines 572-582):
insert only when not already present and admitted by the filter. -/
def applyAdd (cc : ChangeConfig) (s : List String) : Option String → List String
  | some f => if f ∈ s then s else if includedFile cc f then s ++ [f] else s
  | none => s

/-- processChangedFile (publisher.ts lines 534-583): validate the status,
resolve it, remove the deleted or rename-source file from the set, then
insert the added or rename-target file when it is not already present and
passes the exclusion filter. -/
def processChangedFile (cc : ChangeConfig) (s : List String) (ev : ChangeEvent) :
    Except String (List String) :=
  match resolveStatusChars ev.status.data with
  | none => Except.error "Unknown status"
  | some resolvedStatus =>
    if ev.status.data.all statusCharOK then
      Except.ok (applyAdd cc (applyDelete s (deleteTarget resolvedStatus ev))
        (addTarget resolvedStatus ev))
    else Except.error "Unknown status"

/-- Left-to-right processing of a list of change events, stopping at the
first invalid status, as the loops in anyChanges do. -/
def foldEvents (cc : ChangeConfig) (s : List String) : List ChangeEvent → Except String (List String)
  | [] => Except.ok s
  | ev :: rest =>
    match processChangedFile cc s ev with
    | Except.error e => Except.error e
    | Except.ok s2 => foldEvents cc s2 rest

/-- Inputs of one anyChanges call that the source obtains from external
commands and the filesystem: whether git fetch reported outstanding remote
changes, the committed change records parsed from git log, the uncommitted
records parsed from git status, and the on-disk modification time of each
path as reported by lstat. -/
structure ChangesInput where
  remoteDrift : Bool
  committed : List ChangeEvent
  uncommitted : List ChangeEvent
  mtime : String → Nat

/-- For committed log lines only the first character of the status field is
of interest (publisher.ts line 600, status.charAt(0)). -/
def truncStatus (ev : ChangeEvent) : ChangeEvent :=
  { ev with status := String.mk (ev.status.data.take 1) }

/-- Publisher.anyChanges (publisher.ts lines 513-653): fail on remote drift
for non-alpha phases; report changes unconditionally when never published;
otherwise build the changed-file set from committed then uncommitted
records, fail for non-alpha phases when the uncommitted records changed the
set's size, and report changes exactly when some remaining file's
modification time is strictly later than the phase date/time. -/
def anyChanges (phase : Phase) (cc : ChangeConfig) (inp : ChangesInput)
    (phaseDateTime : Option Nat) : Except String Bool :=
  if phase ≠ Phase.alpha ∧ inp.remoteDrift then
    Except.error "Remote repository has outstanding changes"
  else
    match phaseDateTime with
    | none => Except.ok true
    | some t =>
      match foldEvents cc [] (inp.committed.map truncStatus) with
      | Except.error e => Except.error e
      | Except.ok committedSet =>
        if inp.uncommitted.length ≠ 0 then
          match foldEvents cc committedSet inp.uncommitted with
          | Except.error e => Except.error e
          | Except.ok fullSet =>
            if phase ≠ Phase.alpha ∧ fullSet.length ≠ committedSet.length then
              Except.error "Repository has uncommitted changes"
            else
              Except.ok (fullSet.any (fun f => decide (t < inp.mtime f)))
        else
          Except.ok (committedSet.any (fun f => decide (t < inp.mtime f)))

/-- The changed-file set after rename/delete reconciliation and exclusion
filtering: committed records (status truncated to its first character)
processed first, then uncommitted records. -/
def changedFileSet (cc : ChangeConfig) (inp : ChangesInput) : Except String (List String) :=
  match foldEvents cc [] (inp.committed.map truncStatus) with
  | Except.error e => Except.error e
  | Except.ok committedSet => foldEvents cc committedSet inp.uncommitted

/-- Evaluation of anyChanges at an undefined reference instant. -/
theorem anyChanges_none (phase : Phase) (cc : ChangeConfig) (inp : ChangesInput) :
    anyChanges phase cc inp none =
      if phase ≠ Phase.alpha ∧ inp.remoteDrift then
        Except.error "Remote repository has outstanding changes"
      else Except.ok true := rfl

/-- Evaluation of anyChanges at a defined reference instant. -/
theorem anyChanges_some (phase : Phase) (cc : ChangeConfig) (inp : ChangesInput) (t : Nat) :
    anyChanges phase cc inp (some t) =
      if phase ≠ Phase.alpha ∧ inp.remoteDrift then
        Except.error "Remote repository has outstanding changes"
      else
        match foldEvents cc [] (inp.committed.map truncStatus) with
        | Except.error e => Except.error e
        | Except.ok committedSet =>
          if inp.uncommitted.length ≠ 0 then
            match foldEvents cc committedSet inp.uncommitted with
            | Except.error e => Except.error e
            | Except.ok fullSet =>
              if phase ≠ Phase.alpha ∧ fullSet.length ≠ committedSet.length then
                Except.error "Repository has uncommitted changes"
              else
                Except.ok (fullSet.any (fun f => decide (t < inp.mtime f)))
          else
            Except.ok (committedSet.any (fun f => decide (t < inp.mtime f))) := rfl

/-- Claim C3: whenever anyChanges returns, the result is true when the
reference instant is undefined, and otherwise the result is true exactly
when some file remaining in the changed-file set has an on-disk modification
time strictly later than the reference instant. -/
theorem claim3_any_changes_verdict (phase : Phase) (cc : ChangeConfig) (inp : ChangesInput) :
    (∀ b, anyChanges phase cc inp none = Except.ok b → b = true) ∧
    (∀ t b, anyChanges phase cc inp (some t) = Except.ok b →
      ∃ s, changedFileSet cc inp = Except.ok s ∧ (b = true ↔ ∃ f ∈ s, t < inp.mtime f)) := by
  constructor
  · intro b h
    rw [anyChanges_none] at h
    split at h
    · cases h
    · cases h
      rfl
  · intro t b h
    rw [anyChanges_some] at h
    split at h
    · cases h
    · rcases hcs : foldEvents cc [] (inp.committed.map truncStatus) with e | committedSet
      · rw [hcs] at h
        cases h
      · rw [hcs] at h
        simp only [] at h
        split at h
        · rcases hfs : foldEvents cc committedSet inp.uncommitted with e | fullSet
          · rw [hfs] at h
            cases h
          · rw [hfs] at h
            simp only [] at h
            split at h
            · cases h
            · cases h
              refine ⟨fullSet, ?_, ?_⟩
              · unfold changedFileSet
                rw [hcs]
                exact hfs
              · simp [List.any_eq_true]
        · rename_i hlen
          cases h
          have hemp : inp.uncommitted = [] := List.length_eq_zero.mp (by omega)
          refine ⟨committedSet, ?_, ?_⟩
          · unfold changedFileSet
            rw [hcs, hemp]
            rfl
          · simp [List.any_eq_true]

/-- Claim C3 witness: a never-published repository reports changes, and a
published one reports changes exactly when a remaining file is newer than
the reference instant; evaluated on a one-commit input whose only file has
modification time 5 against reference instant 3. -/
theorem claim3_witness :
    (∀ b, anyChanges Phase.beta ⟨true, []⟩
        ⟨false, [⟨"M", "a.ts", none⟩], [], fun _ => 5⟩ none = Except.ok b → b = true) ∧
    (∃ s, changedFileSet ⟨true, []⟩ ⟨false, [⟨"M", "a.ts", none⟩], [], fun _ => 5⟩ =
        Except.ok s ∧ (true = true ↔ ∃ f ∈ s, 3 < (fun _ : String => 5) f)) :=
  ⟨(claim3_any_changes_verdict Phase.beta ⟨true, []⟩
      ⟨false, [⟨"M", "a.ts", none⟩], [], fun _ => 5⟩).1,
    (claim3_any_changes_verdict Phase.beta ⟨true, []⟩
      ⟨false, [⟨"M", "a.ts", none⟩], [], fun _ => 5⟩).2 3 true (by rfl)⟩

/-- Evaluation of processChangedFile on a rename event: the rename source is
removed, then the target is inserted when new and admitted by the filter. -/
theorem processChangedFile_rename (cc : ChangeConfig) (s : List String) (A B : String) :
    processChangedFile cc s ⟨"R", A, some B⟩ =
      Except.ok (applyAdd cc (setDelete s A) (some B)) := rfl

/-- Evaluation of processChangedFile on a delete event: the file is removed
from the set and nothing is inserted. -/
theorem processChangedFile_delete (cc : ChangeConfig) (s : List String) (B : String) :
    processChangedFile cc s ⟨"D", B, none⟩ = Except.ok (setDelete s B) := rfl

/-- Membership in setDelete. -/
theorem mem_setDelete {s : List String} {f g : String} :
    g ∈ setDelete s f ↔ g ∈ s ∧ g ≠ f := by
  simp [setDelete]

/-- Membership after the insertion step comes from the set or the inserted
file. -/
theorem mem_applyAdd {cc : ChangeConfig} {s : List String} {o : Option String} {g : String}
    (h : g ∈ applyAdd cc s o) :
    g ∈ s ∨ ∃ f, o = some f ∧ g = f ∧ f ∉ s ∧ includedFile cc f = true := by
  rcases o with _ | f
  · exact Or.inl h
  · simp only [applyAdd] at h
    split at h
    · exact Or.inl h
    · split at h
      · rcases List.mem_append.mp h with hl | hr
        · exact Or.inl hl
        · rename_i hns hinc
          exact Or.inr ⟨f, rfl, List.mem_singleton.mp hr, hns, hinc⟩
      · exact Or.inl h

/-- Claim C7: for every pair of paths A and B and every state of the
changed-file set, processing the sequence rename A to B then delete B leaves
a changed-file set containing neither A nor B; rename-then-delete never
leaves a stale added entry. -/
theorem claim7_rename_delete (cc : ChangeConfig) (s s₁ s₂ : List String) (A B : String)
    (h₁ : processChangedFile cc s ⟨"R", A, some B⟩ = Except.ok s₁)
    (h₂ : processChangedFile cc s₁ ⟨"D", B, none⟩ = Except.ok s₂) :
    A ∉ s₂ ∧ B ∉ s₂ := by
  rw [processChangedFile_delete] at h₂
  have hs₂ : s₂ = setDelete s₁ B := by
    cases h₂
    rfl
  subst hs₂
  refine ⟨?_, fun hB => (mem_setDelete.mp hB).2 rfl⟩
  intro hA
  rcases mem_setDelete.mp hA with ⟨hA₁, hAB⟩
  rw [processChangedFile_rename] at h₁
  have hs₁ : s₁ = applyAdd cc (setDelete s A) (some B) := by
    cases h₁
    rfl
  subst hs₁
  rcases mem_applyAdd hA₁ with hl | ⟨f, hf, hgf, _, _⟩
  · exact (mem_setDelete.mp hl).2 rfl
  · cases hf
    exact hAB hgf

/-- Claim C7 witness: a concrete run. Starting from the set containing a.ts
and b.ts, renaming a.ts to c.ts and then deleting c.ts leaves neither a.ts
nor c.ts. -/
theorem claim7_witness :
    "a.ts" ∉ (["b.ts"] : List String) ∧ "c.ts" ∉ (["b.ts"] : List String) :=
  claim7_rename_delete ⟨true, []⟩ ["a.ts", "b.ts"] ["b.ts", "c.ts"] ["b.ts"] "a.ts" "c.ts"
    (by rfl) (by rfl)

/-- The only failure processChangedFile produces is the invalid-status one. -/
theorem processChangedFile_error {cc : ChangeConfig} {s : List String} {ev : ChangeEvent}
    {e : String} (h : processChangedFile cc s ev = Except.error e) : e = "Unknown status" := by
  unfold processChangedFile at h
  split at h
  · cases h
    rfl
  · split at h
    · cases h
    · cases h
      rfl

/-- The only failure foldEvents produces is the invalid-status one. -/
theorem foldEvents_error {cc : ChangeConfig} {s : List String} {evs : List ChangeEvent}
    {e : String} (h : foldEvents cc s evs = Except.error e) : e = "Unknown status" := by
  induction evs generalizing s with
  | nil => cases h
  | cons ev rest ih =>
    unfold foldEvents at h
    split at h
    · cases h
      exact processChangedFile_error (by assumption)
    · exact ih h

/-- The removal step never grows the set. -/
theorem mem_applyDelete {s : List String} {o : Option String} {g : String}
    (h : g ∈ applyDelete s o) : g ∈ s := by
  rcases o with _ | f
  · exact h
  · exact (mem_setDelete.mp h).1

/-- Every member a successful processChangedFile leaves in the set passes
the exclusion filter, provided every prior member did. -/
theorem processChangedFile_included {cc : ChangeConfig} {s s₂ : List String} {ev : ChangeEvent}
    (hs : ∀ f ∈ s, includedFile cc f = true)
    (h : processChangedFile cc s ev = Except.ok s₂) :
    ∀ f ∈ s₂, includedFile cc f = true := by
  unfold processChangedFile at h
  split at h
  · cases h
  · split at h
    · cases h
      intro f hf
      rcases mem_applyAdd hf with hl | ⟨g, _, hfg, _, hinc⟩
      · exact hs f (mem_applyDelete hl)
      · cases hfg
        exact hinc
    · cases h

/-- Every member a successful foldEvents run leaves in the set passes the
exclusion filter, provided every initial member did. -/
theorem foldEvents_included {cc : ChangeConfig} {s s₂ : List String} {evs : List ChangeEvent}
    (hs : ∀ f ∈ s, includedFile cc f = true)
    (h : foldEvents cc s evs = Except.ok s₂) :
    ∀ f ∈ s₂, includedFile cc f = true := by
  induction evs generalizing s with
  | nil =>
    cases h
    exact hs
  | cons ev rest ih =>
    unfold foldEvents at h
    split at h
    · cases h
    · rename_i s1 hp
      exact ih (processChangedFile_included hs hp) h

/-- Removing an absent file leaves the set unchanged. -/
theorem setDelete_of_not_mem {s : List String} {f : String} (h : f ∉ s) :
    setDelete s f = s := by
  unfold setDelete
  rw [List.filter_eq_self]
  intro g hg
  simp only [bne_iff_ne, ne_eq, decide_eq_true_eq]
  intro hgf
  exact h (hgf ▸ hg)

/-- An uncommitted record all of whose named files fail the exclusion
filter: the file itself is excluded, and so is the rename target when
present. -/
def eventExcluded (cc : ChangeConfig) (ev : ChangeEvent) : Prop :=
  includedFile cc ev.file = false ∧
    ∀ nf, ev.newFile = some nf → includedFile cc nf = false

/-- Processing a fully excluded event leaves a set of filter-passing
members unchanged. -/
theorem processChangedFile_excluded {cc : ChangeConfig} {s s₂ : List String} {ev : ChangeEvent}
    (hs : ∀ f ∈ s, includedFile cc f = true) (hx : eventExcluded cc ev)
    (h : processChangedFile cc s ev = Except.ok s₂) : s₂ = s := by
  obtain ⟨hx1, hx2⟩ := hx
  have hfile : ev.file ∉ s := by
    intro hmem
    rw [hs ev.file hmem] at hx1
    cases hx1
  have hdel : ∀ rs, applyDelete s (deleteTarget rs ev) = s := by
    intro rs
    unfold deleteTarget
    split
    · exact setDelete_of_not_mem hfile
    · rfl
  have hadd : ∀ o, (o = some ev.file ∨ o = ev.newFile ∨ o = none) → applyAdd cc s o = s := by
    intro o ho
    have hcase : ∀ g, o = some g → includedFile cc g = false := by
      intro g hg
      rcases ho with h1 | h2 | h3
      · rw [h1] at hg
        cases hg
        exact hx1
      · exact hx2 g (h2 ▸ hg)
      · rw [h3] at hg
        cases hg
    rcases o with _ | g
    · rfl
    · simp only [applyAdd]
      split
      · rfl
      · rw [hcase g rfl]
        simp
  unfold processChangedFile at h
  split at h
  · cases h
  · split at h
    · cases h
      rename_i rs _ _
      rw [hdel rs]
      apply hadd
      unfold addTarget
      split
      · exact Or.inr (Or.inl rfl)
      · split
        · exact Or.inl rfl
        · exact Or.inr (Or.inr rfl)
    · cases h

/-- Folding fully excluded events leaves a set of filter-passing members
unchanged. -/
theorem foldEvents_excluded {cc : ChangeConfig} {s s₂ : List String} {evs : List ChangeEvent}
    (hs : ∀ f ∈ s, includedFile cc f = true)
    (hx : ∀ ev ∈ evs, eventExcluded cc ev)
    (h : foldEvents cc s evs = Except.ok s₂) : s₂ = s := by
  induction evs generalizing s with
  | nil =>
    cases h
    rfl
  | cons ev rest ih =>
    unfold foldEvents at h
    split at h
    · cases h
    · rename_i s1 hp
      have h1 : s1 = s := processChangedFile_excluded hs (hx ev (by simp)) hp
      subst h1
      exact ih hs (fun e he => hx e (by simp [he])) h

/-- Claim C4 counterexample: on the beta phase with a defined reference
instant, the uncommitted working-tree file a.ts is outside the allowed
exclusion set, yet anyChanges does not fail with the uncommitted-changes
fault: a.ts was already in the changed-file set from a commit, so the set
size does not change and the call returns ok. -/
theorem claim4_counterexample :
    includedFile ⟨true, []⟩ "a.ts" = true ∧
    anyChanges Phase.beta ⟨true, []⟩
        ⟨false, [⟨"M", "a.ts", none⟩], [⟨" M", "a.ts", none⟩], fun _ => 5⟩ (some 0) =
      Except.ok true :=
  ⟨rfl, rfl⟩

/-- Claim C4 (amended): for a non-alpha phase with a defined reference
instant, anyChanges fails with the uncommitted-changes fault exactly when
processing the uncommitted records changes the size of the changed-file
set; in particular it fails whenever the sizes differ, and it never fails
with that fault when every uncommitted file (including rename targets) is
excluded by the filter. -/
theorem claim4_uncommitted_amended (phase : Phase) (cc : ChangeConfig) (inp : ChangesInput)
    (t : Nat) (hph : phase ≠ Phase.alpha) :
    (∀ committedSet fullSet,
      inp.remoteDrift = false →
      foldEvents cc [] (inp.committed.map truncStatus) = Except.ok committedSet →
      inp.uncommitted ≠ [] →
      foldEvents cc committedSet inp.uncommitted = Except.ok fullSet →
      fullSet.length ≠ committedSet.length →
      anyChanges phase cc inp (some t) = Except.error "Repository has uncommitted changes") ∧
    ((∀ ev ∈ inp.uncommitted, eventExcluded cc ev) →
      anyChanges phase cc inp (some t) ≠ Except.error "Repository has uncommitted changes") ∧
    (anyChanges phase cc inp (some t) = Except.error "Repository has uncommitted changes" →
      inp.remoteDrift = false ∧ ∃ committedSet fullSet,
        foldEvents cc [] (inp.committed.map truncStatus) = Except.ok committedSet ∧
        inp.uncommitted ≠ [] ∧
        foldEvents cc committedSet inp.uncommitted = Except.ok fullSet ∧
        fullSet.length ≠ committedSet.length) := by
  refine ⟨?_, ?_, ?_⟩
  · intro committedSet fullSet hdrift hcs hne hfs hlen
    rw [anyChanges_some, if_neg (by simp [hdrift]), hcs]
    simp only []
    rw [if_pos (fun h0 => hne (List.length_eq_zero.mp h0)), hfs]
    simp only []
    rw [if_pos ⟨hph, hlen⟩]
  · intro hexc heq
    rw [anyChanges_some] at heq
    split at heq
    · injection heq with h
      exact absurd h (by decide)
    · rcases hcs : foldEvents cc [] (inp.committed.map truncStatus) with e | committedSet
      · rw [hcs] at heq
        injection heq with h
        rw [foldEvents_error hcs] at h
        exact absurd h (by decide)
      · rw [hcs] at heq
        simp only [] at heq
        split at heq
        · rcases hfs : foldEvents cc committedSet inp.uncommitted with e | fullSet
          · rw [hfs] at heq
            injection heq with h
            rw [foldEvents_error hfs] at h
            exact absurd h (by decide)
          · rw [hfs] at heq
            simp only [] at heq
            split at heq
            · rename_i hguard
              have hfc : fullSet = committedSet :=
                foldEvents_excluded (foldEvents_included (by simp) hcs) hexc hfs
              exact hguard.2 (by rw [hfc])
            · cases heq
        · cases heq
  · intro heq
    rw [anyChanges_some] at heq
    split at heq
    · injection heq with h
      exact absurd h (by decide)
    · rename_i hg
      have hdrift : inp.remoteDrift = false := by
        by_cases hd : inp.remoteDrift = true
        · exact absurd ⟨hph, hd⟩ hg
        · simp at hd
          exact hd
      refine ⟨hdrift, ?_⟩
      rcases hcs : foldEvents cc [] (inp.committed.map truncStatus) with e | committedSet
      · rw [hcs] at heq
        injection heq with h
        rw [foldEvents_error hcs] at h
        exact absurd h (by decide)
      · rw [hcs] at heq
        simp only [] at heq
        split at heq
        · rename_i hlen
          rcases hfs : foldEvents cc committedSet inp.uncommitted with e | fullSet
          · rw [hfs] at heq
            injection heq with h
            rw [foldEvents_error hfs] at h
            exact absurd h (by decide)
          · rw [hfs] at heq
            simp only [] at heq
            split at heq
            · rename_i hguard
              exact ⟨committedSet, fullSet, rfl,
                fun h0 => hlen (by rw [h0]; rfl), hfs, hguard.2⟩
            · cases heq
        · cases heq

/-- Claim C4 witness: with no committed records and one non-excluded
uncommitted modification of b.ts, the changed-file set grows from zero to
one entry and the beta-phase call fails with the uncommitted-changes
fault. -/
theorem claim4_witness :
    anyChanges Phase.beta ⟨true, []⟩ ⟨false, [], [⟨" M", "b.ts", none⟩], fun _ => 5⟩ (some 0) =
      Except.error "Repository has uncommitted changes" :=
  (claim4_uncommitted_amended Phase.beta ⟨true, []⟩
      ⟨false, [], [⟨" M", "b.ts", none⟩], fun _ => 5⟩ 0 (by decide)).1
    [] ["b.ts"] rfl rfl (List.cons_ne_nil _ _) rfl (by decide)

/-- The status alphabet admitted by the validation regexp. -/
def statusAlphabet : List Char := [' ', 'A', 'M', 'D', 'R']

/-- The spec's description of two-character status resolution, written from
the spec's words for comparison with resolveStatus: the non-blank half when
either half is blank; otherwise D when the working-tree half is D; otherwise
A when the index half is A; otherwise the index half. -/
def specResolvedStatus (indexStatus workingTreeStatus : Char) : Char :=
  if indexStatus = ' ' then workingTreeStatus
  else if workingTreeStatus = ' ' then indexStatus
  else if workingTreeStatus = 'D' then 'D'
  else if indexStatus = 'A' then 'A'
  else indexStatus

/-- Claim C8: over the status alphabet of space, A, M, D, R, the resolved
effective status of an index/working-tree pair is the non-blank half when
either half is blank, else D when the working-tree half is D, else A when
the index half is A, else the index half. -/
theorem claim8_status_resolution (i w : Char)
    (hi : i ∈ statusAlphabet) (hw : w ∈ statusAlphabet) :
    resolveStatus i w = specResolvedStatus i w := by
  fin_cases hi <;> fin_cases hw <;> rfl

/-- Claim C8 witness: the pair with index status A and working-tree status D
resolves per the spec description (to D, working-tree delete winning). -/
theorem claim8_witness :
    resolveStatus 'A' 'D' = specResolvedStatus 'A' 'D' ∧ resolveStatus 'A' 'D' = 'D' :=
  ⟨claim8_status_resolution 'A' 'D' (by decide) (by decide), by decide⟩

/- Phase state store (configuration.ts PhaseState, publisher.ts
Publisher.updatePhaseState lines 775-798). -/

/-- Per-repository, per-phase record (configuration.ts, newer design):
last-publish instant in milliseconds and version surfaced to dependents. -/
structure PhaseState where
  dateTime : Option Nat := none
  version : Option String := none
deriving DecidableEq

/-- A JS Partial of PhaseState: none marks a field absent from the partial
update. -/
structure PhaseStatePatch where
  dateTime : Option Nat := none
  version : Option String := none

/-- Timestamp normalization at publisher.ts line 781: truncate the
sub-second component and add one full second. -/
def normalizeDateTime (t : Nat) : Nat :=
  t - t % 1000 + 1000

/-- Publisher.updatePhaseState: merge the provided fields over the phase
state, with a provided dateTime replaced by its normalization, and
overwrite the cached phase date/time with exactly the normalized value when
a dateTime was provided. Returns the replacement phase state and the new
cached phase date/time. -/
def updatePhaseState (ps : PhaseState) (phaseDateTime : Option Nat) (p : PhaseStatePatch) :
    PhaseState × Option Nat :=
  let phaseStateDateTime : Option Nat :=
    match p.dateTime with
    | some t => some (normalizeDateTime t)
    | none => none
  let updatedPhaseState : PhaseState :=
    { dateTime :=
        match phaseStateDateTime with
        | some nt => some nt
        | none =>
          match p.dateTime with
          | some t => some t
          | none => ps.dateTime,
      version :=
        match p.version with
        | some v => some v
        | none => ps.version }
  (updatedPhaseState,
    match phaseStateDateTime with
    | some nt => some nt
    | none => phaseDateTime)

/-- Claim C6: when the partial state carries a dateTime with original value
t and sub-second component m, the stored dateTime is t - m + 1000, the
cached phase reference instant is overwritten to exactly that value, the
normalized value exceeds the original by more than zero and by at most two
seconds, and fields absent from the partial update are preserved. -/
theorem claim6_update_phase_state (ps : PhaseState) (phaseDateTime : Option Nat)
    (p : PhaseStatePatch) (t m : Nat) (ht : p.dateTime = some t) (hm : t % 1000 = m) :
    (updatePhaseState ps phaseDateTime p).1.dateTime = some (t - m + 1000) ∧
    (updatePhaseState ps phaseDateTime p).2 = some (t - m + 1000) ∧
    t < t - m + 1000 ∧ t - m + 1000 ≤ t + 2000 ∧
    (p.version = none → (updatePhaseState ps phaseDateTime p).1.version = ps.version) := by
  have hmle : m ≤ t := hm ▸ Nat.mod_le t 1000
  have hmlt : m < 1000 := hm ▸ Nat.mod_lt t (by omega)
  refine ⟨?_, ?_, by omega, by omega, ?_⟩
  · simp [updatePhaseState, ht, normalizeDateTime, hm]
  · simp [updatePhaseState, ht, normalizeDateTime, hm]
  · intro hv
    simp [updatePhaseState, hv]

/-- Claim C6 witness: recording a completion instant of 5123 milliseconds
(sub-second component 123) stores and caches 6000 milliseconds, between
1 and 2000 milliseconds past the original, preserving the version field. -/
theorem claim6_witness :
    (updatePhaseState ⟨none, some "1.0.0"⟩ none ⟨some 5123, none⟩).1.dateTime = some 6000 ∧
    (updatePhaseState ⟨none, some "1.0.0"⟩ none ⟨some 5123, none⟩).2 = some 6000 ∧
    5123 < 6000 ∧ 6000 ≤ 5123 + 2000 ∧
    ((⟨some 5123, none⟩ : PhaseStatePatch).version = none →
      (updatePhaseState ⟨none, some "1.0.0"⟩ none ⟨some 5123, none⟩).1.version = some "1.0.0") :=
  claim6_update_phase_state ⟨none, some "1.0.0"⟩ none ⟨some 5123, none⟩ 5123 123 rfl rfl

/- Version model and branch-driven version bump (publisher.ts
Publisher.updatePackageVersion lines 730-756 and the version-branch section
of Publisher.buildPublishState lines 862-885). -/

/-- Ephemeral per-repository publish state (publisher.ts interface
RepositoryPublishState), restricted to the fields the publication logic
below reads and writes; packageVersion embeds
packageConfiguration.version. -/
structure RepositoryPublishState where
  repositoryName : String
  branch : String
  phaseState : PhaseState
  phaseDateTime : Option Nat
  majorVersion : Nat
  minorVersion : Nat
  patchVersion : Nat
  preReleaseIdentifier : Option String
  packageVersion : String
  savePackageConfigurationPending : Bool
  anyDependenciesUpdated : Bool
deriving DecidableEq

/-- Canonical dotted version string with optional pre-release suffix
(publisher.ts line 749). -/
def formatVersion (major minor patch : Nat) (pre : Option String) : String :=
  Nat.repr major ++ "." ++ Nat.repr minor ++ "." ++ Nat.repr patch ++
    (match pre with
      | some p => "-" ++ p
      | none => "")

/-- Publisher.updatePackageVersion: each provided component replaces the
corresponding field, unset components carry over; the formatted version is
written into the package configuration, which is then saved (clearing the
pending flag). A pre-release argument of some none clears the identifier
(JS null); none leaves it unchanged (JS undefined). -/
def updatePackageVersion (rps : RepositoryPublishState)
    (major minor patch : Option Nat) (pre : Option (Option String)) :
    RepositoryPublishState × String :=
  let rps1 := { rps with
    majorVersion := major.getD rps.majorVersion,
    minorVersion := minor.getD rps.minorVersion,
    patchVersion := patch.getD rps.patchVersion,
    preReleaseIdentifier :=
      match pre with
      | some p => p
      | none => rps.preReleaseIdentifier }
  let version := formatVersion rps1.majorVersion rps1.minorVersion
    rps1.patchVersion rps1.preReleaseIdentifier
  ({ rps1 with packageVersion := version, savePackageConfigurationPending := false }, version)

/-- Evaluation of updatePackageVersion when every component is provided. -/
theorem updatePackageVersion_all (rps : RepositoryPublishState) (a b c : Nat)
    (p : Option String) :
    (updatePackageVersion rps (some a) (some b) (some c) (some p)).1 =
      { rps with
        majorVersion := a
        minorVersion := b
        patchVersion := c
        preReleaseIdentifier := p
        packageVersion := formatVersion a b c p
        savePackageConfigurationPending := false } := rfl

/-- Decimal digit run to number. -/
def digitsToNat (cs : List Char) : Nat :=
  cs.foldl (fun n c => 10 * n + (c.toNat - 48)) 0

/-- The version-branch pattern of buildPublishState (line 866): a leading v,
a digit run, a dot, a digit run; anything may follow. -/
def parseBranchVersion (branch : String) : Option (Nat × Nat) :=
  match branch.data with
  | 'v' :: rest =>
    let ds1 := rest.takeWhile Char.isDigit
    let rest1 := rest.dropWhile Char.isDigit
    if ds1.isEmpty then none
    else
      match rest1 with
      | '.' :: rest2 =>
        let ds2 := rest2.takeWhile Char.isDigit
        if ds2.isEmpty then none
        else some (digitsToNat ds1, digitsToNat ds2)
      | _ => none
  | _ => none

/-- The version-branch mismatch handling of buildPublishState (lines
877-884): when the parsed manifest major.minor differs from the branch
pair, either fail with the invalid-transition fault or bump to branch
major.minor with patch 0 and no pre-release identifier and commit that
change (the Bool records that the commit was made). -/
def branchVersionUpdate (rps : RepositoryPublishState)
    (branchMajorVersion branchMinorVersion : Nat) :
    Except String (RepositoryPublishState × Bool) :=
  if rps.majorVersion ≠ branchMajorVersion ∨ rps.minorVersion ≠ branchMinorVersion then
    if (if rps.majorVersion ≠ branchMajorVersion
        then rps.majorVersion ≠ branchMajorVersion - 1
        else rps.minorVersion ≠ branchMinorVersion - 1) then
      Except.error "Invalid transition"
    else
      Except.ok ((updatePackageVersion rps (some branchMajorVersion)
        (some branchMinorVersion) (some 0) (some none)).1, true)
  else Except.ok (rps, false)

/-- Branch handling of buildPublishState: parse the branch and update the
version when the branch is a version branch. -/
def buildVersionBranchUpdate (rps : RepositoryPublishState) (branch : String) :
    Except String (RepositoryPublishState × Bool) :=
  match parseBranchVersion branch with
  | some (bM, bm) => branchVersionUpdate rps bM bm
  | none => Except.ok (rps, false)

/-- Manifest version 1.4.9 awaiting a branch-driven bump. -/
def rps149 : RepositoryPublishState :=
  { repositoryName := "repo", branch := "v2.0", phaseState := {}, phaseDateTime := none,
    majorVersion := 1, minorVersion := 4, patchVersion := 9, preReleaseIdentifier := none,
    packageVersion := "1.4.9", savePackageConfigurationPending := false,
    anyDependenciesUpdated := false }

/-- Claim C2 counterexample: from manifest version 1.4.9 on branch v2.0 the
code does not fail with the invalid-transition fault; the major is exactly
one higher, so the version is accepted and bumped to 2.0.0 with a commit. -/
theorem claim2_counterexample :
    buildVersionBranchUpdate rps149 "v2.0" =
      Except.ok ({ rps149 with
        majorVersion := 2
        minorVersion := 0
        patchVersion := 0
        packageVersion := "2.0.0" }, true) ∧
    buildVersionBranchUpdate rps149 "v2.0" ≠ Except.error "Invalid transition" := by
  constructor
  · rfl
  · intro h
    cases h

/-- Claim C2 (amended): on a version branch whose pair differs from the
manifest major.minor, a one-step difference (same major with minor one
higher, or major one higher regardless of minor) bumps the manifest version
to branch major.minor with patch 0 and no pre-release identifier and
commits it, and every other mismatch (in particular a jump of more than one
step) fails with the invalid-transition fault; manifest 1.4.9 on branch
v1.5 becomes 1.5.0 committed, and manifest 1.4.9 on branch v2.0 is likewise
accepted, becoming 2.0.0 committed. -/
theorem claim2_branch_bump_amended :
    (∀ (rps : RepositoryPublishState) (bM bm : Nat),
      (rps.majorVersion ≠ bM ∨ rps.minorVersion ≠ bm) →
      (((rps.majorVersion = bM ∧ rps.minorVersion + 1 = bm) ∨ rps.majorVersion + 1 = bM) →
        branchVersionUpdate rps bM bm =
          Except.ok ({ rps with
            majorVersion := bM
            minorVersion := bm
            patchVersion := 0
            preReleaseIdentifier := none
            packageVersion := formatVersion bM bm 0 none
            savePackageConfigurationPending := false }, true)) ∧
      (¬((rps.majorVersion = bM ∧ rps.minorVersion + 1 = bm) ∨ rps.majorVersion + 1 = bM) →
        branchVersionUpdate rps bM bm = Except.error "Invalid transition")) ∧
    buildVersionBranchUpdate rps149 "v1.5" =
      Except.ok ({ rps149 with
        minorVersion := 5
        patchVersion := 0
        packageVersion := "1.5.0" }, true) ∧
    buildVersionBranchUpdate rps149 "v2.0" =
      Except.ok ({ rps149 with
        majorVersion := 2
        minorVersion := 0
        patchVersion := 0
        packageVersion := "2.0.0" }, true) := by
  have cond_iff : ∀ a bM m bm : Nat,
      ((if a ≠ bM then a ≠ bM - 1 else m ≠ bm - 1) : Prop) ↔
        ((a ≠ bM ∧ a ≠ bM - 1) ∨ (a = bM ∧ m ≠ bm - 1)) := by
    intro a bM m bm
    by_cases hA : a = bM
    · rw [if_neg (not_not_intro hA)]
      constructor
      · intro hm
        exact Or.inr ⟨hA, hm⟩
      · intro hor
        rcases hor with ⟨h1, _⟩ | ⟨_, h2⟩
        · exact absurd hA h1
        · exact h2
    · rw [if_pos hA]
      constructor
      · intro hm
        exact Or.inl ⟨hA, hm⟩
      · intro hor
        rcases hor with ⟨_, h2⟩ | ⟨h1, _⟩
        · exact h2
        · exact absurd h1 hA
  refine ⟨?_, rfl, rfl⟩
  intro rps bM bm hdiff
  constructor
  · intro hone
    have hc : ¬ ((if rps.majorVersion ≠ bM then rps.majorVersion ≠ bM - 1
        else rps.minorVersion ≠ bm - 1) : Prop) := by
      rw [cond_iff]
      rcases hone with ⟨h1, h2⟩ | h3 <;> omega
    rw [branchVersionUpdate, if_pos hdiff, if_neg hc, updatePackageVersion_all]
  · intro hnot
    have hc : ((if rps.majorVersion ≠ bM then rps.majorVersion ≠ bM - 1
        else rps.minorVersion ≠ bm - 1) : Prop) := by
      rw [cond_iff]
      rw [not_or] at hnot
      obtain ⟨hn1, hn2⟩ := hnot
      by_cases hA : rps.majorVersion = bM
      · have hn1a : ¬ (rps.minorVersion + 1 = bm) := fun hb => hn1 ⟨hA, hb⟩
        rcases hdiff with h | h <;> omega
      · omega
    rw [branchVersionUpdate, if_pos hdiff, if_pos hc]

/-- Claim C2 witness: applying the amended bump rule at manifest version
1.4.9 and branch pair 1.5 yields the committed bump to 1.5.0. -/
theorem claim2_witness :
    branchVersionUpdate rps149 1 5 =
      Except.ok ({ rps149 with
        majorVersion := 1
        minorVersion := 5
        patchVersion := 0
        preReleaseIdentifier := none
        packageVersion := formatVersion 1 5 0 none
        savePackageConfigurationPending := false }, true) :=
  (claim2_branch_bump_amended.1 rps149 1 5 (Or.inr (by decide))).1 (Or.inl (by constructor <;> rfl))

/- Dependency resolution (publisher.ts Publisher.dependencyRepositoryName,
Publisher.isOrganizationDependencyUpdated lines 476-499, the dependency
section of Publisher.buildPublishState lines 890-919, and
non-alpha-publisher.ts NonAlphaPublisher.dependencyVersionFor lines
93-120). -/

/-- Repository configuration (configuration.ts, newer design), restricted
to the fields the dependency logic reads; an undefined
additionalDependencies list is modelled as the empty list, which the
iteration at publisher.ts line 911 treats identically. -/
structure Repository where
  workingVersion : String
  dependencyType : DependencyType
  phaseStates : Phase → Option PhaseState
  additionalDependencies : List String

/-- Publisher.dependencyRepositoryName: the repository name of a dependency
that splits at slashes into exactly the at-organization prefix and a name,
null otherwise. -/
def dependencyRepositoryName (atOrganization dependency : String) : Option String :=
  match splitOnChar '/' dependency.data with
  | [a, b] => if a = atOrganization.data then some (String.mk b) else none
  | _ => none

/-- NonAlphaPublisher.dependencyVersionFor: the recorded phase version of
the dependency repository, which must exist; external dependencies use it
directly, caret-prefixed in production; internal dependencies become an
organization/name#vVERSION source-control reference; other dependency types
are invalid here. -/
def dependencyVersionFor (phase : Phase) (organization : String)
    (repositories : String → Repository) (depName : String) : Except String String :=
  match ((repositories depName).phaseStates phase).bind PhaseState.version with
  | none => Except.error "Internal error: version not set for dependency"
  | some phaseStateVersion =>
    match (repositories depName).dependencyType with
    | DependencyType.external =>
      Except.ok (if phase ≠ Phase.prod then phaseStateVersion else "^" ++ phaseStateVersion)
    | DependencyType.internal =>
      Except.ok (organization ++ "/" ++ depName ++ "#v" ++ phaseStateVersion)
    | _ => Except.error "Invalid dependency type for dependency"

/-- Internal dependency repository foo of organization acme, published at
phase version 1.2.0. -/
def fooRepository : Repository :=
  { workingVersion := "1.2"
    dependencyType := DependencyType.internal
    phaseStates := fun p =>
      if p = Phase.prod then some { dateTime := some 0, version := some "1.2.0" } else none
    additionalDependencies := [] }

/-- Claim C9: for a non-alpha phase, a dependency with recorded phase
version V yields V for an external dependency outside production, a
caret-prefixed V for an external dependency in production, and an
organization/name#vV reference for an internal dependency; a missing
recorded version is a fatal internal-consistency fault; internal foo at
1.2.0 under acme yields acme/foo#v1.2.0. -/
theorem claim9_dependency_version :
    (∀ (phase : Phase) (org : String) (repositories : String → Repository) (depName : String),
      phase ≠ Phase.alpha →
      (∀ v, ((repositories depName).phaseStates phase).bind PhaseState.version = some v →
        ((repositories depName).dependencyType = DependencyType.external →
          (phase ≠ Phase.prod →
            dependencyVersionFor phase org repositories depName = Except.ok v) ∧
          (phase = Phase.prod →
            dependencyVersionFor phase org repositories depName = Except.ok ("^" ++ v))) ∧
        ((repositories depName).dependencyType = DependencyType.internal →
          dependencyVersionFor phase org repositories depName =
            Except.ok (org ++ "/" ++ depName ++ "#v" ++ v))) ∧
      (((repositories depName).phaseStates phase).bind PhaseState.version = none →
        dependencyVersionFor phase org repositories depName =
          Except.error "Internal error: version not set for dependency")) ∧
    dependencyVersionFor Phase.prod "acme" (fun _ => fooRepository) "foo" =
      Except.ok "acme/foo#v1.2.0" := by
  constructor
  · intro phase org repositories depName hph
    constructor
    · intro v hv
      constructor
      · intro hdt
        constructor
        · intro hp
          unfold dependencyVersionFor
          rw [hv]
          simp only []
          rw [hdt]
          simp only []
          rw [if_pos hp]
        · intro hp
          unfold dependencyVersionFor
          rw [hv]
          simp only []
          rw [hdt]
          simp only []
          rw [if_neg (not_not_intro hp)]
      · intro hdt
        unfold dependencyVersionFor
        rw [hv]
        simp only []
        rw [hdt]
    · intro hv
      unfold dependencyVersionFor
      rw [hv]
  · rfl

/-- External dependency repository bar, published at beta phase version
2.0.0. -/
def barRepository : Repository :=
  { workingVersion := "2.0"
    dependencyType := DependencyType.external
    phaseStates := fun p =>
      if p = Phase.beta then some { dateTime := some 0, version := some "2.0.0" } else none
    additionalDependencies := [] }

/-- Claim C9 witness: external bar at beta phase version 2.0.0 yields the
unprefixed version string in the beta phase. -/
theorem claim9_witness :
    dependencyVersionFor Phase.beta "acme" (fun _ => barRepository) "bar" =
      Except.ok "2.0.0" :=
  (((claim9_dependency_version.1 Phase.beta "acme" (fun _ => barRepository) "bar"
    (by decide)).1 "2.0.0" rfl).1 rfl).1 (by decide)

/-- Arguments of the dependency-processing section of buildPublishState:
the configured repositories, the phase, the phase-specific timestamp
resolution (the abstract getPhaseDateTime), the at-organization prefix, the
current repository's working version (set at publisher.ts line 888 from the
parsed manifest major.minor before the loop), the current repository's
phase date/time, and the phase-specific substitution version strategy. -/
structure DependencyContext where
  repositories : String → Repository
  phase : Phase
  resolvePhaseDateTime : Repository → Option Nat → Option Nat
  atOrganization : String
  workingVersion : String
  phaseDateTime : Option Nat
  depVersionFor : String → Except String String

/-- Publisher.isOrganizationDependencyUpdated: the dependency must have a
phase state and a resolved phase date/time; it counts as updated when the
current repository was never published for the phase or its last-published
instant is strictly earlier than the dependency's resolved instant. -/
def isOrganizationDependencyUpdated (A : DependencyContext) (depName : String) :
    Except String Bool :=
  match (A.repositories depName).phaseStates A.phase with
  | none => Except.error "Internal error: dependency has no state for phase"
  | some dependencyPhaseState =>
    match A.resolvePhaseDateTime (A.repositories depName) dependencyPhaseState.dateTime with
    | none => Except.error "Internal error: dependency has no phase date time"
    | some repositoryPhaseDateTime =>
      Except.ok
        (match A.phaseDateTime with
          | none => true
          | some t => decide (t < repositoryPhaseDateTime))

/-- The manifest-dependency loop body of buildPublishState (lines 890-906)
over one dependency map: organization dependencies with matching working
version that are updated get their entry rewritten to the substitution
version and set the updated flag; everything else is kept unchanged. -/
def processDependencyList (A : DependencyContext) :
    List (String × String) → Except String (List (String × String) × Bool)
  | [] => Except.ok ([], false)
  | (name, ver) :: rest =>
    match dependencyRepositoryName A.atOrganization name with
    | none =>
      match processDependencyList A rest with
      | Except.error e => Except.error e
      | Except.ok (l, f) => Except.ok ((name, ver) :: l, f)
    | some r =>
      if (A.repositories r).workingVersion = A.workingVersion then
        match isOrganizationDependencyUpdated A r with
        | Except.error e => Except.error e
        | Except.ok true =>
          match A.depVersionFor r with
          | Except.error e => Except.error e
          | Except.ok nv =>
            match processDependencyList A rest with
            | Except.error e => Except.error e
            | Except.ok (l, _f) => Except.ok ((name, nv) :: l, true)
        | Except.ok false =>
          match processDependencyList A rest with
          | Except.error e => Except.error e
          | Except.ok (l, f) => Except.ok ((name, ver) :: l, f)
      else
        match processDependencyList A rest with
        | Except.error e => Except.error e
        | Except.ok (l, f) => Except.ok ((name, ver) :: l, f)

/-- The additional-dependencies loop of buildPublishState (lines 911-919):
each additional dependency contributes only to the updated flag. -/
def processAdditional (A : DependencyContext) : List String → Except String Bool
  | [] => Except.ok false
  | r :: rest =>
    match isOrganizationDependencyUpdated A r with
    | Except.error e => Except.error e
    | Except.ok b =>
      match processAdditional A rest with
      | Except.error e => Except.error e
      | Except.ok f => Except.ok (b || f)

/-- The dependency section of buildPublishState: process development then
runtime dependencies, then the additional dependencies, accumulating
anyDependenciesUpdated across all three. -/
def buildDependencyUpdates (A : DependencyContext)
    (devDependencies dependencies : List (String × String)) (additional : List String) :
    Except String (List (String × String) × List (String × String) × Bool) :=
  match processDependencyList A devDependencies with
  | Except.error e => Except.error e
  | Except.ok (dev2, f1) =>
    match processDependencyList A dependencies with
    | Except.error e => Except.error e
    | Except.ok (dep2, f2) =>
      match processAdditional A additional with
      | Except.error e => Except.error e
      | Except.ok f3 => Except.ok (dev2, dep2, f1 || f2 || f3)

/-- A successful step of processDependencyList keeps the entry's name,
recurses on the rest, and can only raise the updated flag. -/
theorem processDependencyList_cons {A : DependencyContext} {n₀ v₀ : String}
    {rest : List (String × String)} {out : List (String × String)} {flag : Bool}
    (h : processDependencyList A ((n₀, v₀) :: rest) = Except.ok (out, flag)) :
    ∃ w l f, processDependencyList A rest = Except.ok (l, f) ∧
      out = (n₀, w) :: l ∧ (f = true → flag = true) := by
  simp only [processDependencyList] at h
  rcases hh : dependencyRepositoryName A.atOrganization n₀ with _ | r₀
  all_goals rw [hh] at h
  · simp only [] at h
    rcases hrest : processDependencyList A rest with e | ⟨l, f⟩
    all_goals rw [hrest] at h
    · cases h
    · simp only [] at h
      cases h
      exact ⟨v₀, l, _, rfl, rfl, fun hf => hf⟩
  · simp only [] at h
    by_cases hw : (A.repositories r₀).workingVersion = A.workingVersion
    · rw [if_pos hw] at h
      rcases hu : isOrganizationDependencyUpdated A r₀ with e | b
      all_goals rw [hu] at h
      · cases h
      · cases b
        · simp only [] at h
          rcases hrest : processDependencyList A rest with e | ⟨l, f⟩
          all_goals rw [hrest] at h
          · cases h
          · simp only [] at h
            cases h
            exact ⟨v₀, l, _, rfl, rfl, fun hf => hf⟩
        · simp only [] at h
          rcases hv : A.depVersionFor r₀ with e | nv₀
          all_goals rw [hv] at h
          · cases h
          · simp only [] at h
            rcases hrest : processDependencyList A rest with e | ⟨l, f⟩
            all_goals rw [hrest] at h
            · cases h
            · simp only [] at h
              cases h
              exact ⟨nv₀, l, _, rfl, rfl, fun _ => rfl⟩
    · rw [if_neg hw] at h
      rcases hrest : processDependencyList A rest with e | ⟨l, f⟩
      all_goals rw [hrest] at h
      · cases h
      · simp only [] at h
        cases h
        exact ⟨v₀, l, _, rfl, rfl, fun hf => hf⟩

/-- The repository lib works on version 1.5 while the current repository
works on 1.4, and lib's beta phase advanced to instant 100. -/
def libRepository : Repository :=
  { workingVersion := "1.5"
    dependencyType := DependencyType.external
    phaseStates := fun p =>
      if p = Phase.beta then some { dateTime := some 100, version := some "1.5.0" } else none
    additionalDependencies := [] }

/-- Dependency context of a current repository on working version 1.4,
never published for beta (reference instant 0, strictly before lib's
resolved instant 100). -/
def mismatchContext : DependencyContext :=
  { repositories := fun _ => libRepository
    phase := Phase.beta
    resolvePhaseDateTime := fun _ dateTime => dateTime
    atOrganization := "@acme"
    workingVersion := "1.4"
    phaseDateTime := some 0
    depVersionFor := fun _ => Except.ok "9.9.9" }

/-- Claim C5 counterexample: the manifest dependency at-acme/lib belongs to
the organization and its resolved beta instant 100 is strictly later than
the current repository's reference instant 0, yet because lib's working
version 1.5 differs from the current repository's 1.4 the code neither sets
anyDependenciesUpdated nor rewrites the manifest entry. -/
theorem claim5_counterexample :
    dependencyRepositoryName "@acme" "@acme/lib" = some "lib" ∧
    isOrganizationDependencyUpdated mismatchContext "lib" = Except.ok true ∧
    buildDependencyUpdates mismatchContext [] [("@acme/lib", "^1.0.0")] [] =
      Except.ok ([], [("@acme/lib", "^1.0.0")], false) :=
  ⟨rfl, rfl, rfl⟩

/-- Claim C5 (amended): a manifest-declared dependency (dev or runtime)
whose package name belongs to the organization, whose repository's working
version equals the current repository's working version, and whose resolved
phase timestamp is strictly later than the current repository's
last-published instant for the phase (or the repository was never
published), has its entry rewritten to the phase-specific substitution
version and forces anyDependenciesUpdated true; additional dependencies
contribute only to the updated flag, never to the manifest maps. -/
theorem claim5_dependency_update_amended (A : DependencyContext) :
    (∀ r ps rt, (A.repositories r).phaseStates A.phase = some ps →
      A.resolvePhaseDateTime (A.repositories r) ps.dateTime = some rt →
      (isOrganizationDependencyUpdated A r = Except.ok true ↔
        (A.phaseDateTime = none ∨ ∃ t, A.phaseDateTime = some t ∧ t < rt))) ∧
    (∀ (l₁ l₂ : List (String × String)) (name ver : String)
        (out : List (String × String)) (flag : Bool) (r nv : String),
      dependencyRepositoryName A.atOrganization name = some r →
      (A.repositories r).workingVersion = A.workingVersion →
      isOrganizationDependencyUpdated A r = Except.ok true →
      A.depVersionFor r = Except.ok nv →
      processDependencyList A (l₁ ++ (name, ver) :: l₂) = Except.ok (out, flag) →
      flag = true ∧ ∃ o₁ o₂, out = o₁ ++ (name, nv) :: o₂ ∧ o₁.length = l₁.length) ∧
    (∀ devDependencies dependencies additional dev2 dep2 flag dev2b dep2b flagb,
      buildDependencyUpdates A devDependencies dependencies additional =
        Except.ok (dev2, dep2, flag) →
      buildDependencyUpdates A devDependencies dependencies [] =
        Except.ok (dev2b, dep2b, flagb) →
      dev2 = dev2b ∧ dep2 = dep2b) ∧
    (∀ devDependencies dependencies additional dev2 dep2 flag,
      buildDependencyUpdates A devDependencies dependencies additional =
        Except.ok (dev2, dep2, flag) →
      processAdditional A additional = Except.ok true → flag = true) := by
  refine ⟨?_, ?_, ?_, ?_⟩
  · intro r ps rt hps hrt
    unfold isOrganizationDependencyUpdated
    rw [hps]
    simp only []
    rw [hrt]
    simp only []
    rcases hpd : A.phaseDateTime with _ | t
    · simp
    · simp
  · intro l₁
    induction l₁ with
    | nil =>
      intro l₂ name ver out flag r nv hr hwv hupd hnv hout
      rw [List.nil_append] at hout
      simp only [processDependencyList] at hout
      rw [hr] at hout
      simp only [] at hout
      rw [if_pos hwv, hupd] at hout
      simp only [] at hout
      rw [hnv] at hout
      simp only [] at hout
      rcases hrest : processDependencyList A l₂ with e | ⟨l, f⟩
      all_goals rw [hrest] at hout
      · cases hout
      · simp only [] at hout
        cases hout
        exact ⟨rfl, [], l, rfl, rfl⟩
    | cons hd l₁ ih =>
      intro l₂ name ver out flag r nv hr hwv hupd hnv hout
      rcases hd with ⟨n₀, v₀⟩
      rw [List.cons_append] at hout
      obtain ⟨w, l, f, hrest, houtEq, himp⟩ := processDependencyList_cons hout
      obtain ⟨hf, o₁, o₂, hdec, hlen⟩ := ih l₂ name ver l f r nv hr hwv hupd hnv hrest
      refine ⟨himp hf, (n₀, w) :: o₁, o₂, ?_, ?_⟩
      · rw [houtEq, hdec]
        rfl
      · simp [hlen]
  · intro devDependencies dependencies additional dev2 dep2 flag dev2b dep2b flagb h1 h2
    unfold buildDependencyUpdates at h1 h2
    rcases hdev : processDependencyList A devDependencies with e | ⟨d1, f1⟩
    all_goals rw [hdev] at h1 h2
    · cases h1
    · simp only [] at h1 h2
      rcases hdep : processDependencyList A dependencies with e | ⟨d2, f2⟩
      all_goals rw [hdep] at h1 h2
      · cases h1
      · simp only [] at h1 h2
        rcases hadd : processAdditional A additional with e | f3
        all_goals rw [hadd] at h1
        · cases h1
        · simp only [] at h1 h2
          cases h1
          cases h2
          exact ⟨rfl, rfl⟩
  · intro devDependencies dependencies additional dev2 dep2 flag h1 hadd
    unfold buildDependencyUpdates at h1
    rcases hdev : processDependencyList A devDependencies with e | ⟨d1, f1⟩
    all_goals rw [hdev] at h1
    · cases h1
    · simp only [] at h1
      rcases hdep : processDependencyList A dependencies with e | ⟨d2, f2⟩
      all_goals rw [hdep] at h1
      · cases h1
      · simp only [] at h1
        rw [hadd] at h1
        simp only [] at h1
        cases h1
        simp

/-- Claim C5 witness: in a context where the dependency repository lib
shares working version 1.5, advanced to instant 100 past reference 0, a
runtime map holding at-acme/other then at-acme/lib is rewritten at lib's
position with substitution version 9.9.9 and the updated flag is set. -/
theorem claim5_witness :
    true = true ∧ ∃ o₁ o₂,
      [("lodash", "^2.0.0"), ("@acme/lib", "9.9.9")] = o₁ ++ ("@acme/lib", "9.9.9") :: o₂ ∧
      o₁.length = [(("lodash" : String), ("^2.0.0" : String))].length :=
  (claim5_dependency_update_amended
      { repositories := fun _ => { libRepository with workingVersion := "1.5" }
        phase := Phase.beta
        resolvePhaseDateTime := fun _ dateTime => dateTime
        atOrganization := "@acme"
        workingVersion := "1.5"
        phaseDateTime := some 0
        depVersionFor := fun _ => Except.ok "9.9.9" }).2.1
    [("lodash", "^2.0.0")] [] "@acme/lib" "^1.0.0"
    [("lodash", "^2.0.0"), ("@acme/lib", "9.9.9")] true "lib" "9.9.9"
    rfl rfl rfl rfl rfl

/- Step runner and resumable non-alpha publish sequence
(non-alpha-publisher.ts: Step, NonAlphaPublisher.runStep lines 143-157,
NonAlphaPublisher.publish lines 217-377). -/

/-- The non-alpha publication steps (non-alpha-publisher.ts line 56). -/
inductive Step
  | install
  | build
  | commit
  | tag
  | push
  | workflowPush
  | release
  | workflowRelease
  | pullRequest
  | npmWait
deriving DecidableEq

/-- NonAlphaPublisher.runStep on a successful action: when the persisted
step is undefined or equals the step, the action runs and the step field is
cleared afterwards; otherwise the step is skipped and the state is left
alone. Returns whether the action ran and the resulting persisted step. -/
def runStep (publishStateStep : Option Step) (step : Step) : Bool × Option Step :=
  if publishStateStep = none ∨ publishStateStep = some step then (true, none)
  else (false, publishStateStep)

/-- Run an ordered list of steps through runStep, collecting the steps whose
actions ran and the final persisted step field. -/
def runSteps (publishStateStep : Option Step) : List Step → List Step × Option Step
  | [] => ([], publishStateStep)
  | step :: rest =>
    match runStep publishStateStep step with
    | (executed, nextStep) =>
      match runSteps nextStep rest with
      | (executedSteps, finalStep) =>
        (if executed then step :: executedSteps else executedSteps, finalStep)

/-- The inputs that select which steps NonAlphaPublisher.publish registers:
dependency type, phase, dry-run mode and the workflow triggers found in the
repository. -/
structure StepConfig where
  dependencyType : DependencyType
  phase : Phase
  dryRun : Bool
  hasPushWorkflow : Bool
  hasReleaseWorkflow : Bool

/-- The ordered step sequence NonAlphaPublisher.publish hands to runStep
(lines 295-371): install, build, commit always; tag except for helper
repositories; push always; workflow (push) when a push workflow exists;
release (skipped entirely under dry run) and workflow (release) except for
helper repositories; pull request for non-helper production publishes; npm
wait for external repositories. -/
def nonAlphaSteps (c : StepConfig) : List Step :=
  [Step.install, Step.build, Step.commit]
    ++ (if c.dependencyType ≠ DependencyType.helper then [Step.tag] else [])
    ++ [Step.push]
    ++ (if c.hasPushWorkflow then [Step.workflowPush] else [])
    ++ (if c.dependencyType ≠ DependencyType.helper then
          (if c.dryRun then [] else [Step.release])
            ++ (if c.hasReleaseWorkflow then [Step.workflowRelease] else [])
        else [])
    ++ (if c.dependencyType ≠ DependencyType.helper ∧ c.phase = Phase.prod then
          [Step.pullRequest]
        else [])
    ++ (if c.dependencyType = DependencyType.external then [Step.npmWait] else [])

/-- Claim C1: the step runner executes a step's action exactly when the
persisted step field is undefined or equals the step, clearing the field on
success, and skips the step entirely (leaving the field alone) otherwise;
consequently a rerun of the non-alpha sequence with persisted step tag
skips install, build and commit (the steps before tag), executes tag and
every later step, and ends with the step field cleared. -/
theorem claim1_step_runner :
    (∀ (publishStateStep : Option Step) (step : Step),
      ((runStep publishStateStep step).1 = true ↔
        (publishStateStep = none ∨ publishStateStep = some step)) ∧
      ((publishStateStep = none ∨ publishStateStep = some step) →
        (runStep publishStateStep step).2 = none) ∧
      (publishStateStep ≠ none → publishStateStep ≠ some step →
        runStep publishStateStep step = (false, publishStateStep))) ∧
    (∀ c : StepConfig, c.dependencyType ≠ DependencyType.helper →
      (nonAlphaSteps c).take 3 = [Step.install, Step.build, Step.commit] ∧
      runSteps (some Step.tag) (nonAlphaSteps c) = ((nonAlphaSteps c).drop 3, none)) := by
  constructor
  · intro publishStateStep step
    refine ⟨?_, ?_, ?_⟩
    · unfold runStep
      split
      · simp_all
      · simp_all
    · intro h
      unfold runStep
      rw [if_pos h]
    · intro h1 h2
      unfold runStep
      rw [if_neg ?_]
      intro h
      rcases h with h | h
      · exact h1 h
      · exact h2 h
  · intro c hc
    rcases c with ⟨dt, ph, dr, hp, hr⟩
    cases dt <;> cases ph <;> cases dr <;> cases hp <;> cases hr <;>
      first
        | exact absurd rfl hc
        | exact ⟨rfl, rfl⟩

/-- Claim C1 witness: an external production repository with both workflow
triggers and dry run off, rerun with persisted step tag, skips the first
three steps and executes tag, push, both workflow waits, release, pull
request and npm wait, ending cleared. -/
theorem claim1_witness :
    (nonAlphaSteps ⟨DependencyType.external, Phase.prod, false, true, true⟩).take 3 =
      [Step.install, Step.build, Step.commit] ∧
    runSteps (some Step.tag)
        (nonAlphaSteps ⟨DependencyType.external, Phase.prod, false, true, true⟩) =
      ((nonAlphaSteps ⟨DependencyType.external, Phase.prod, false, true, true⟩).drop 3,
        none) :=
  claim1_step_runner.2 ⟨DependencyType.external, Phase.prod, false, true, true⟩ (by decide)

/- Per-repository publish state lifecycle (publisher.ts: constructor line
227, repositoryPublishState accessor lines 302-309, buildPublishState
assignment line 847, publishAll lines 930-981). -/

/-- The repositoryPublishState accessor: accessing the field while it is
undefined is a programming-error fault. -/
def repositoryPublishStateGet (state : Option RepositoryPublishState) :
    Except String RepositoryPublishState :=
  match state with
  | none => Except.error "Repository publish state not defined"
  | some s => Except.ok s

/-- Evolution of the private repositoryPublishState field across
publishAll: the constructor leaves it undefined; processing a repository
assigns the state built for it (buildPublishState line 847); neither the
publish call nor the finally block (which restores the directory and saves
configuration, lines 956-961) clears the field afterwards. The list holds
the repositories processed in order, each abstracted by the publish state
built for it. -/
def publishAllRepositoryField (build : String → RepositoryPublishState)
    (state : Option RepositoryPublishState) : List String → Option RepositoryPublishState
  | [] => state
  | repositoryName :: rest => publishAllRepositoryField build (some (build repositoryName)) rest

/-- A minimal concrete publish state for the lifecycle counterexample. -/
def sampleState : RepositoryPublishState :=
  { repositoryName := "alpha-lib", branch := "v1.0", phaseState := {}, phaseDateTime := none,
    majorVersion := 1, minorVersion := 0, patchVersion := 0, preReleaseIdentifier := none,
    packageVersion := "1.0.0", savePackageConfigurationPending := false,
    anyDependenciesUpdated := false }

/-- Claim C10 counterexample: after the only repository's processing window
has ended (the loop over the single repository is complete, so no publish
is active), the field still holds that repository's state and accessing it
returns it instead of throwing the programming-error fault. -/
theorem claim10_counterexample :
    publishAllRepositoryField (fun _ => sampleState) none ["alpha-lib"] = some sampleState ∧
    repositoryPublishStateGet (publishAllRepositoryField (fun _ => sampleState) none
      ["alpha-lib"]) = Except.ok sampleState :=
  ⟨rfl, rfl⟩

/-- Claim C10 (amended): accessing repositoryPublishState before any
repository's state has been built throws the programming-error fault, and
accessing a built state returns it; but a repository's state is not
discarded when its processing window ends: it persists until overwritten by
the next repository's build, so after processing ends with repository r the
field holds r's state. -/
theorem claim10_publish_state_amended :
    repositoryPublishStateGet none = Except.error "Repository publish state not defined" ∧
    (∀ s : RepositoryPublishState, repositoryPublishStateGet (some s) = Except.ok s) ∧
    (∀ (build : String → RepositoryPublishState) (state : Option RepositoryPublishState)
        (processed : List String) (r : String),
      publishAllRepositoryField build state (processed ++ [r]) = some (build r)) := by
  refine ⟨rfl, fun s => rfl, ?_⟩
  intro build state processed r
  induction processed generalizing state with
  | nil => rfl
  | cons hd tl ih => exact ih (some (build hd))

end Publisher
